import Mathlib

/-!
# Verification of the reminder-scheduling service

Shallow embedding of `src/index.js`: the duration parser
(`parseReminderTime`), the schedule calculator (`calculateReminderTime`),
the reminder intake handler (`POST /api/set-reminder`) and the due-reminder
sweep handler (`POST /api/check-reminders`), together with theorems about
the specification claims.

JavaScript values reaching the handlers come from JSON request bodies, so
numbers are finite; a supplied JSON number is modelled as the exact
rational value of the double it denotes.  The parser pipeline models the
program's IEEE-754 double arithmetic: `parseInt` rounds its mathematical
integer to the nearest double (ties to even) and overflows to Infinity,
each unit-suffix multiplication re-rounds, and the `Date` constructor
clips to the valid time range (|t| <= 8.64e15 ms) and truncates toward
zero.  Characters are compared through their code points (`Char.toNat`).
-/

namespace MailerApi

/-! ## Characters and JavaScript string primitives -/

/-- JavaScript whitespace as used by `String.prototype.trim` and `parseInt`
(WhiteSpace and LineTerminator): TAB 9, LF 10, VT 11, FF 12, CR 13, SP 32,
NBSP 160, OGHAM SPACE 5760, the Zs block 8192-8202, LS 8232, PS 8233,
NNBSP 8239, MMSP 8287, IDEOGRAPHIC SPACE 12288, BOM 65279. -/
def isJsWs (c : Char) : Bool :=
  decide (c.toNat = 9 ∨ c.toNat = 10 ∨ c.toNat = 11 ∨ c.toNat = 12 ∨
    c.toNat = 13 ∨ c.toNat = 32 ∨ c.toNat = 160 ∨ c.toNat = 5760 ∨
    (8192 ≤ c.toNat ∧ c.toNat ≤ 8202) ∨ c.toNat = 8232 ∨
    c.toNat = 8233 ∨ c.toNat = 8239 ∨ c.toNat = 8287 ∨ c.toNat = 12288 ∨
    c.toNat = 65279)

/-- Decimal digit: code points 48 ('0') to 57 ('9'). -/
def isDigitChar (c : Char) : Bool :=
  decide (48 ≤ c.toNat ∧ c.toNat ≤ 57)

/-- Hexadecimal digit: decimal digit, or 97 'a' to 102 'f', or 65 'A' to 70 'F'. -/
def isHexDigitChar (c : Char) : Bool :=
  isDigitChar c || decide (97 ≤ c.toNat ∧ c.toNat ≤ 102) ||
    decide (65 ≤ c.toNat ∧ c.toNat ≤ 70)

/-- Digit selector for the two radixes `parseInt` can use here (10 and 16). -/
def isRadixDigit (r : ℕ) (c : Char) : Bool :=
  if r = 16 then isHexDigitChar c else isDigitChar c

/-- Numeric value of a digit character (48-57 map to 0-9, 97-102 and 65-70
to 10-15); only ever applied to radix digits. -/
def digitVal (c : Char) : ℕ :=
  if 97 ≤ c.toNat then c.toNat - 87
  else if 65 ≤ c.toNat then c.toNat - 55
  else c.toNat - 48

/-- `String.prototype.trim`: remove leading and trailing JS whitespace. -/
def jsTrim (cs : List Char) : List Char :=
  ((cs.dropWhile isJsWs).reverse.dropWhile isJsWs).reverse

/-- Value of a digit run in radix `r` (the accumulator fold `parseInt` uses). -/
def digitsVal (r : ℕ) (ds : List Char) : ℕ :=
  ds.foldl (fun acc c => acc * r + digitVal c) 0

/-- Maximal leading digit run in radix `r`; `none` when it is empty
(`parseInt`'s NaN). -/
def parseDigits (r : ℕ) (cs : List Char) : Option ℕ :=
  let ds := cs.takeWhile (isRadixDigit r)
  if ds.isEmpty then none else some (digitsVal r ds)

/-- `parseInt` after sign handling: an optional `0x`/`0X` prefix (codes 48
then 120 or 88) switches to radix 16, otherwise radix 10. -/
def parseIntBody (cs : List Char) : Option ℕ :=
  match cs with
  | c0 :: c1 :: rest =>
    if c0.toNat = 48 ∧ (c1.toNat = 120 ∨ c1.toNat = 88)
    then parseDigits 16 rest
    else parseDigits 10 (c0 :: c1 :: rest)
  | cs' => parseDigits 10 cs'

/-! ## IEEE-754 doubles, as far as the parser pipeline produces them -/

/-- Floor base-2 logarithm by fuel (the fuel `n` dominates the number of
halvings), written structurally so the kernel can evaluate it. -/
def log2Fuel : ℕ → ℕ → ℕ
  | 0, _ => 0
  | fuel + 1, n => if 2 ≤ n then log2Fuel fuel (n / 2) + 1 else 0

/-- Floor base-2 logarithm: `2 ^ natLog2 m ≤ m < 2 ^ (natLog2 m + 1)` for
`m ≥ 1`. -/
def natLog2 (m : ℕ) : ℕ := log2Fuel m m

/-- Round a natural number to the nearest IEEE-754 double (round to
nearest, ties to even); `none` is overflow to Infinity.  Integers up to
2^53 are exact.  Above, with `2^e ≤ m < 2^(e+1)` the representable
neighbours are the multiples of `2^(e-52)`, and a rounded value reaching
2^1024 overflows — so exactly the magnitudes ≥ 2^1024 - 2^970 become
Infinity, as the ECMAScript number conversion specifies. -/
def roundNatToDouble (m : ℕ) : Option ℕ :=
  if m ≤ 2 ^ 53 then some m
  else
    let s := natLog2 m - 52
    let q := m / 2 ^ s
    let r := m % 2 ^ s
    let q2 := if 2 ^ s < 2 * r ∨ (2 * r = 2 ^ s ∧ q % 2 = 1) then q + 1 else q
    let v := q2 * 2 ^ s
    if v < 2 ^ 1024 then some v else none

/-- An integer-valued double, or an infinity: everything `parseInt` and
the unit-suffix scaling can produce (the NaN `parseInt` can return is the
`none` of `jsParseInt`). -/
inductive DblInt where
  | fin : ℤ → DblInt
  | posInf : DblInt
  | negInf : DblInt
deriving DecidableEq

/-- Conversion of a mathematical integer to a double — the final step of
`parseInt` (`sign × mathInt` rounded to the number type). -/
def dblOfInt (n : ℤ) : DblInt :=
  if 0 ≤ n then
    match roundNatToDouble n.toNat with
    | some v => .fin (v : ℤ)
    | none => .posInf
  else
    match roundNatToDouble (-n).toNat with
    | some v => .fin (-(v : ℤ))
    | none => .negInf

/-- Double multiplication by a small positive integer constant (the
parser's `* 60` and `* 24`): the exact product of an integer-valued double
with the constant is an integer, re-rounded to a double; infinities are
absorbing (`Infinity * 60 = Infinity`). -/
def DblInt.mulPos : DblInt → ℕ → DblInt
  | .fin z, k => dblOfInt (z * k)
  | .posInf, _ => .posInf
  | .negInf, _ => .negInf

/-- A JavaScript number as the handlers see one: a finite value (exact,
for JSON-supplied doubles) or an infinity.  NaN cannot reach the handlers:
JSON cannot encode it, and the parser turns `parseInt`'s NaN into the
`null` failure before it escapes. -/
inductive JSNum where
  | fin : ℚ → JSNum
  | posInf : JSNum
  | negInf : JSNum
deriving DecidableEq

/-- Forget that a parser-produced double is integer-valued. -/
def DblInt.toJSNum : DblInt → JSNum
  | .fin z => .fin ((z : ℤ) : ℚ)
  | .posInf => .posInf
  | .negInf => .negInf

/-- The JavaScript comparison `minutes <= 0` (`Infinity <= 0` is false,
`-Infinity <= 0` is true). -/
def jsLeZero : JSNum → Bool
  | .fin q => decide (q ≤ 0)
  | .posInf => false
  | .negInf => true

/-- ECMAScript `parseInt(s)` with no radix argument: skip leading
whitespace, read an optional sign (45 '-', 43 '+'), an optional hex
prefix, then the maximal digit run; the signed mathematical integer is
converted to a double; `none` models NaN. -/
def jsParseInt (cs : List Char) : Option DblInt :=
  match cs.dropWhile isJsWs with
  | [] => none
  | c :: rest =>
    if c.toNat = 45 then (parseIntBody rest).map (fun (n : ℕ) => dblOfInt (-(n : ℤ)))
    else if c.toNat = 43 then (parseIntBody rest).map (fun (n : ℕ) => dblOfInt (n : ℤ))
    else (parseIntBody (c :: rest)).map (fun (n : ℕ) => dblOfInt (n : ℤ))

/-- Code point of the last character, 0 when empty; `s.endsWith "m"` for a
one-character suffix is exactly a comparison with the last code point. -/
def lastCode (cs : List Char) : ℕ :=
  match cs.getLast? with
  | some c => c.toNat
  | none => 0

/-! ## JavaScript values (JSON request payloads plus `undefined`) -/

/-- A JavaScript value as it can reach the handlers through a JSON body,
plus `undefined` for absent fields.  Numbers are exact rationals. -/
inductive JSValue where
  | undef : JSValue
  | null : JSValue
  | bool : Bool → JSValue
  | num : ℚ → JSValue
  | str : String → JSValue
  | arr : List JSValue → JSValue
  | obj : List (String × JSValue) → JSValue

/-- Largest `e` with `p ^ e` dividing `n`, by fuel (structural, so the
kernel can evaluate it); only used with `p` = 2 and 5. -/
def pexpFuel : ℕ → ℕ → ℕ → ℕ
  | 0, _, _ => 0
  | fuel + 1, p, n => if n % p = 0 ∧ n ≠ 0 then pexpFuel fuel p (n / p) + 1 else 0

/-- Largest `e` with `p ^ e` dividing `n`. -/
def pexp (p n : ℕ) : ℕ := pexpFuel n p n

/-- A run of `k` zero characters. -/
def zerosStr (k : ℕ) : String := String.mk (List.replicate k '0')

/-- Drop trailing '0' characters (code 48). -/
def stripTrailingZeros (s : String) : String :=
  String.mk ((s.toList.reverse.dropWhile (fun c => decide (c.toNat = 48))).reverse)

/-- The positional/exponential layout of ECMAScript `Number::toString`
applied to an exact decimal expansion: the positive value is
`digits × 10^(-k)` where `s0` is the decimal rendering of `digits`;
after trimming trailing zeros the significand `s` (length `L`) denotes
the value `0.s × 10^n`.  Integers up to 10^21 print plainly, a decimal
point is inserted for `0 < n ≤ 21`, small values down to 10^-6 print with
leading zeros, everything else in exponential form `d.dde±x`. -/
def decLayout (s0 : String) (k : ℕ) : String :=
  let n : ℤ := (s0.length : ℤ) - (k : ℤ)
  let s := stripTrailingZeros s0
  let L := s.length
  if (L : ℤ) ≤ n ∧ n ≤ 21 then s ++ zerosStr (n - (L : ℤ)).toNat
  else if 0 < n ∧ n ≤ 21 then s.take n.toNat ++ "." ++ s.drop n.toNat
  else if -6 < n ∧ n ≤ 0 then "0." ++ zerosStr (-n).toNat ++ s
  else
    (if L = 1 then s else s.take 1 ++ "." ++ s.drop 1) ++ "e" ++
      (if 1 ≤ n then "+" else "-") ++ toString (n - 1).natAbs

/-- Rendering of a positive number by `String()`: when the denominator is
of the form `2^a·5^b` — every value with a terminating decimal expansion,
in particular every finite double — the exact expansion is laid out as
`Number::toString` does.  (For doubles whose exact expansion exceeds 17
significant digits, JavaScript prints the shortest round-tripping decimal
instead; that trimming is not modelled, and no claim exercises it.)  A
denominator with other prime factors is not a double value at all and is
rendered as a `num/den` marker. -/
def ratToStringPos (q : ℚ) : String :=
  let a := pexp 2 q.den
  let b := pexp 5 q.den
  if 2 ^ a * 5 ^ b = q.den then
    decLayout (toString (q.num.toNat * 10 ^ max a b / q.den)) (max a b)
  else toString q.num ++ "/" ++ toString q.den

/-- Rendering of a number by `String()` (`String(2.5)` is "2.5",
`String(30)` is "30", `String(2^-20)` is "9.5367431640625e-7"). -/
def ratToString (q : ℚ) : String :=
  if q = 0 then "0"
  else if q < 0 then "-" ++ ratToStringPos (-q)
  else ratToStringPos q

mutual

/-- JavaScript `String(v)`: `undefined`/`null`/booleans by name, strings
unchanged, arrays join their elements with commas (null and undefined
elements become empty), plain objects give "[object Object]". -/
def jsToString : JSValue → String
  | .undef => "undefined"
  | .null => "null"
  | .bool b => if b then "true" else "false"
  | .num q => ratToString q
  | .str s => s
  | .arr xs => String.intercalate "," (jsToStringElems xs)
  | .obj _ => "[object Object]"
termination_by structural v => v

/-- Rendering of the elements of an array by `Array.prototype.join`:
null and undefined elements become empty strings. -/
def jsToStringElems : List JSValue → List String
  | [] => []
  | .undef :: xs => "" :: jsToStringElems xs
  | .null :: xs => "" :: jsToStringElems xs
  | x :: xs => jsToString x :: jsToStringElems xs
termination_by structural l => l

end

/-- `typeof v === 'number'`. -/
def jsIsNum : JSValue → Bool
  | .num _ => true
  | _ => false

/-- `typeof v === 'string'`. -/
def jsIsStr : JSValue → Bool
  | .str _ => true
  | _ => false

/-- JavaScript falsiness for the values in the model (`NaN` cannot arrive
through JSON): `undefined`, `null`, `false`, `0` and `""` are falsy. -/
def jsFalsy : JSValue → Bool
  | .undef => true
  | .null => true
  | .bool b => !b
  | .num q => decide (q = 0)
  | .str s => decide (s = "")
  | .arr _ => false
  | .obj _ => false

/-! ## The duration parser (`parseReminderTime`, src/index.js:58-89) -/

/-- String branch of `parseReminderTime`: trim, `parseInt` (yielding a
double), then the unit suffix — final code 109 'm' keeps minutes, 104 'h'
multiplies by 60, 100 'd' multiplies by 24 and then by 60, anything else
keeps minutes.  Each multiplication is a double multiplication and
re-rounds its exact integer product. -/
def parseReminderStringD (s : String) : Option DblInt :=
  let cs := jsTrim s.toList
  match jsParseInt cs with
  | none => none
  | some value =>
    if lastCode cs = 109 then some value
    else if lastCode cs = 104 then some (value.mulPos 60)
    else if lastCode cs = 100 then some ((value.mulPos 24).mulPos 60)
    else some value

/-- `parseReminderTime` (src/index.js:58-89): numbers pass through
unchanged; every other value is converted with `String()` and parsed;
`none` models the `null` failure result. -/
def parseReminderTime : JSValue → Option JSNum
  | .num q => some (.fin q)
  | v => (parseReminderStringD (jsToString v)).map DblInt.toJSNum

/-- Modelled from the spec: the decimal-integer-prefix parse the
specification describes in §4.1 step 3 — read exactly the maximal run of
leading decimal digit characters, failing when it is empty.  Declared only
to compare the spec's words against the `parseInt` call the code makes. -/
def specDecimalPrefixParse (cs : List Char) : Option ℕ :=
  let ds := cs.takeWhile isDigitChar
  if ds.isEmpty then none else some (digitsVal 10 ds)

/-! ## The schedule calculator (`calculateReminderTime`, src/index.js:91-94) -/

/-- Truncation of the exact fraction `a / b` (`b > 0`) toward zero, the
rounding `TimeClip`/`ToIntegerOrInfinity` applies inside the `Date`
constructor.  For `0 ≤ a` Lean's Euclidean `/` already truncates toward
zero; for negative `a` the sign is taken out first. -/
def intTruncDiv (a b : ℤ) : ℤ :=
  if 0 ≤ a then a / b else -((-a) / b)

/-- `calculateReminderTime` (src/index.js:91-94):
`new Date(now.getTime() + minutes * 60 * 1000)`.  `now.getTime()` is an
integer count of milliseconds; the handler passes the current instant
explicitly.  `TimeClip` in the `Date` constructor yields an Invalid Date
(`none`) when the time value is infinite or its magnitude exceeds
8.64e15 ms, and otherwise truncates toward zero.  For a finite `minutes`
the exact value `now + minutes * 60000` is the fraction
`(now * den + num * 60000) / den`.  The interior `* 60`, `* 1000` and `+`
are taken exact here; the double products and sum the program computes
round only when `|minutes| * 60000` exceeds 2^53 or the sum leaves the
clip range, and the exactness theorem below (claim C8) restricts itself
to bounds under which the program's double arithmetic performs no
rounding either. -/
def calculateReminderTime (minutes : JSNum) (now : ℤ) : Option ℤ :=
  match minutes with
  | .posInf => none
  | .negInf => none
  | .fin q =>
    let tnum := now * (q.den : ℤ) + q.num * 60000
    if tnum.natAbs ≤ 8640000000000000 * q.den then
      some (intTruncDiv tnum (q.den : ℤ))
    else none

/-! ## Reminder records (`ReminderSchema`, src/index.js:22-46) -/

/-- A persisted reminder record.  `email`, `problemUrl` and `problemTitle`
are stored as the supplied request values (none of the claims exercises the
store's string casting); `scheduledFor` and `createdAt` are millisecond
timestamps; `sent` defaults to false. -/
structure Reminder where
  email : JSValue
  problemUrl : JSValue
  problemTitle : JSValue
  scheduledFor : ℤ
  sent : Bool
  createdAt : ℤ

/-- The `sent` transition `reminder.sent = true` performed by the sweep:
every other field is kept. -/
def setSentR (r : Reminder) : Reminder :=
  { r with sent := true }

/-! ## Intake handler (`POST /api/set-reminder`, src/index.js:96-157) -/

/-- Request body of `/api/set-reminder`; absent fields destructure to
`undefined`. -/
structure IntakeBody where
  email : JSValue
  problemUrl : JSValue
  problemTitle : JSValue
  reminderMinutes : JSValue

/-- Successful outbound side effects of one intake request, in order. -/
inductive IEvent where
  | confirmationMail : JSValue → IEvent
  | insertRecord : Reminder → IEvent

/-- HTTP status, resulting store and effect log of one intake request. -/
structure IntakeOutcome where
  status : ℕ
  store : List Reminder
  events : List IEvent

/-- The intake handler (src/index.js:96-157).  `mailOk` is whether
`transporter.sendMail` resolves, `saveOk` whether `reminder.save`
resolves; a rejection is caught and answered with 500.  Validation:
missing/falsy `email`, `problemUrl` or `reminderMinutes` give 400; a
`null` parse or `minutes <= 0` gives 400 (`Infinity` passes this check).
The schedule is computed, then the confirmation mail is sent, and only
afterwards the record is constructed (with `sent = false` and
`createdAt = now` by schema default) and saved.  When the schedule is an
Invalid Date (infinite minutes, or outside the clip range) the mail still
goes out — `toLocaleString` renders "Invalid Date" without throwing — but
the store rejects the cast of an Invalid Date into the required `Date`
field, so the save fails and the request ends 500 with nothing
persisted. -/
def setReminder (body : IntakeBody) (now : ℤ) (mailOk saveOk : Bool)
    (store : List Reminder) : IntakeOutcome :=
  if jsFalsy body.email || jsFalsy body.problemUrl || jsFalsy body.reminderMinutes then
    ⟨400, store, []⟩
  else
    match parseReminderTime body.reminderMinutes with
    | none => ⟨400, store, []⟩
    | some minutes =>
      if jsLeZero minutes then ⟨400, store, []⟩
      else
        match calculateReminderTime minutes now with
        | none =>
          if mailOk then ⟨500, store, [IEvent.confirmationMail body.email]⟩
          else ⟨500, store, []⟩
        | some sf =>
          if mailOk then
            let r : Reminder :=
              ⟨body.email, body.problemUrl, body.problemTitle, sf, false, now⟩
            if saveOk then
              ⟨200, store ++ [r], [IEvent.confirmationMail body.email, IEvent.insertRecord r]⟩
            else ⟨500, store, [IEvent.confirmationMail body.email]⟩
          else ⟨500, store, []⟩

/-! ## Sweep handler (`POST /api/check-reminders`, src/index.js:159-196) -/

/-- A record is due when `scheduledFor <= now` and `sent == false`
(the `Reminder.find` query). -/
def isDue (now : ℤ) (r : Reminder) : Bool :=
  decide (r.scheduledFor ≤ now) && !r.sent

/-- The due records in store order, each with its position in the store;
positions stand in for Mongo document identity when `save` writes the
`sent` update back. -/
def dueIdx (now : ℤ) : ℕ → List Reminder → List (ℕ × Reminder)
  | _, [] => []
  | i, r :: rs =>
    if isDue now r then (i, r) :: dueIdx now (i + 1) rs
    else dueIdx now (i + 1) rs

/-- Successful outbound side effects of one sweep, in order: the reminder
mail for the record at a store position, and the persisted `sent = true`
update for it. -/
inductive SEvent where
  | mail : ℕ → SEvent
  | markSent : ℕ → SEvent
deriving DecidableEq

/-- The sweep loop (src/index.js:170-186): for each fetched record in
order, send its mail, set `sent = true` and save.  `mo k`/`so k` are
whether the mail/save promise of the k-th processed record resolves; the
first rejection leaves the loop (the Bool result is false and the 500
branch is taken).  A failed save leaves the store row unchanged. -/
def sweepLoop (mo so : ℕ → Bool) : ℕ → List (ℕ × Reminder) → List Reminder →
    List SEvent → Bool × List Reminder × List SEvent
  | _, [], store, evs => (true, store, evs)
  | k, p :: rest, store, evs =>
    if mo k then
      if so k then
        sweepLoop mo so (k + 1) rest (store.set p.1 (setSentR p.2))
          (evs ++ [SEvent.mail p.1, SEvent.markSent p.1])
      else (false, store, evs ++ [SEvent.mail p.1])
    else (false, store, evs)

/-- HTTP status, response count, resulting store and effect log of one
sweep request. -/
structure SweepOutcome where
  status : ℕ
  processedReminders : Option ℕ
  store : List Reminder
  events : List SEvent

/-- The value the `x-cron-secret` header is compared against
(src/index.js:160).  The code compares with the string literal
`'Sanjeev'`; the process environment (modelled as the map `env`) is not
consulted. -/
def expectedCronSecret (_env : String → Option String) : String :=
  "Sanjeev"

/-- The sweep handler (src/index.js:159-196): reject with 401 unless the
`x-cron-secret` header (`none` when absent) equals the expected secret;
otherwise fetch the due records, run the loop, and answer 200 with the
fetched count, or 500 if the loop was left by a rejection. -/
def checkReminders (env : String → Option String) (secret : Option String)
    (now : ℤ) (mo so : ℕ → Bool) (store : List Reminder) : SweepOutcome :=
  if secret ≠ some (expectedCronSecret env) then ⟨401, none, store, []⟩
  else
    let due := dueIdx now 0 store
    match sweepLoop mo so 0 due store [] with
    | (true, store2, evs) => ⟨200, some due.length, store2, evs⟩
    | (false, store2, evs) => ⟨500, none, store2, evs⟩

/-! ## List helpers -/

theorem getq_set_other {α : Type _} (a : α) :
    ∀ (l : List α) (i j : ℕ), i ≠ j → (l.set i a)[j]? = l[j]?
  | [], _, _, _ => rfl
  | _ :: _, 0, 0, h => absurd rfl h
  | x :: xs, 0, j + 1, _ => by simp [List.set]
  | x :: xs, i + 1, 0, _ => by simp [List.set]
  | x :: xs, i + 1, j + 1, h => by
    simpa [List.set] using getq_set_other a xs i j (by omega)

theorem getq_set_self {α : Type _} (a : α) :
    ∀ (l : List α) (i : ℕ), i < l.length → (l.set i a)[i]? = some a
  | [], i, h => by simp at h
  | x :: xs, 0, _ => by simp [List.set]
  | x :: xs, i + 1, h => by
    simpa [List.set] using getq_set_self a xs i (by simpa using h)

theorem getq_of_mem {α : Type _} {a : α} {l : List α} (h : a ∈ l) :
    ∃ i : ℕ, l[i]? = some a := by
  induction l with
  | nil => simp at h
  | cons x xs ih =>
    rcases List.mem_cons.mp h with h | h
    · exact ⟨0, by simp [h]⟩
    · obtain ⟨i, hi⟩ := ih h
      exact ⟨i + 1, by simpa using hi⟩

theorem mem_of_getq {α : Type _} {a : α} {l : List α} {i : ℕ}
    (h : l[i]? = some a) : a ∈ l := by
  induction l generalizing i with
  | nil => simp at h
  | cons x xs ih =>
    cases i with
    | zero => simp at h; simp [h]
    | succ i => exact List.mem_cons_of_mem x (ih (by simpa using h))

theorem getq_take {α : Type _} :
    ∀ (l : List α) (m i : ℕ), i < m → (l.take m)[i]? = l[i]?
  | [], _, _, _ => by simp
  | x :: xs, m + 1, 0, _ => by simp
  | x :: xs, m + 1, i + 1, h => by
    simpa using getq_take xs m i (by omega)

theorem dropWhile_all_false {α : Type _} (p : α → Bool) :
    ∀ (l : List α), (∀ c ∈ l, p c = false) → l.dropWhile p = l
  | [], _ => rfl
  | x :: xs, h => by
    simp [List.dropWhile, h x (List.mem_cons_self x xs)]

theorem takeWhile_all_append {α : Type _} (p : α → Bool) :
    ∀ (l l' : List α), (∀ c ∈ l, p c = true) → (l ++ l').takeWhile p = l ++ l'.takeWhile p
  | [], l', _ => rfl
  | x :: xs, l', h => by
    simp [List.takeWhile, h x (List.mem_cons_self x xs)]
    exact takeWhile_all_append p xs l' (fun c hc => h c (List.mem_cons_of_mem x hc))

/-! ## Character class facts -/

theorem not_ws_of_digit {c : Char} (h : isDigitChar c = true) : isJsWs c = false := by
  simp [isDigitChar] at h
  simp [isJsWs]
  omega

theorem digit_codes {c : Char} (h : isDigitChar c = true) :
    48 ≤ c.toNat ∧ c.toNat ≤ 57 := by
  simpa [isDigitChar] using h

/-- Trimming a list with no JS whitespace anywhere leaves it unchanged. -/
theorem jsTrim_of_no_ws {cs : List Char} (h : ∀ c ∈ cs, isJsWs c = false) :
    jsTrim cs = cs := by
  unfold jsTrim
  rw [dropWhile_all_false isJsWs cs h]
  rw [dropWhile_all_false isJsWs cs.reverse (fun c hc => h c (List.mem_reverse.mp hc))]
  exact List.reverse_reverse cs

/-! ## `parseInt` on digit strings -/

/-- Radix 10 just selects decimal digits. -/
theorem isRadixDigit_ten : isRadixDigit 10 = isDigitChar := by
  funext c
  simp [isRadixDigit]

/-- The spec's decimal-integer-prefix parse is the radix-10 digit run. -/
theorem specDecimal_eq_parseDigits (cs : List Char) :
    specDecimalPrefixParse cs = parseDigits 10 cs := by
  simp [specDecimalPrefixParse, parseDigits, isRadixDigit_ten]

/-- `parseIntBody` stays in radix 10 when the hex-prefix test fails: the
head is not '0', or the second character is not 'x'/'X'. -/
theorem parseIntBody_not_hex {cs : List Char}
    (h : ∀ c0 c1 rest, cs = c0 :: c1 :: rest →
      ¬(c0.toNat = 48 ∧ (c1.toNat = 120 ∨ c1.toNat = 88))) :
    parseIntBody cs = parseDigits 10 cs := by
  match cs with
  | [] => rfl
  | [c] => rfl
  | c0 :: c1 :: rest => simp [parseIntBody, h c0 c1 rest rfl]

/-- `parseDigits` on an all-digit run followed by a non-digit tail. -/
theorem parseDigits_digits_append {ds tail : List Char}
    (hne : ds ≠ []) (hds : ∀ c ∈ ds, isDigitChar c = true)
    (htail : tail.takeWhile isDigitChar = []) :
    parseDigits 10 (ds ++ tail) = some (digitsVal 10 ds) := by
  unfold parseDigits
  rw [isRadixDigit_ten]
  rw [takeWhile_all_append isDigitChar ds tail hds, htail]
  simp [hne]

/-- `jsParseInt` on a nonempty digit run followed by one extra character
that is not whitespace, not a hex marker and not a digit: it reads exactly
the digit run, in decimal. -/
theorem jsParseInt_digits_append {ds : List Char} {u : Char}
    (hne : ds ≠ []) (hds : ∀ c ∈ ds, isDigitChar c = true)
    (hu : isDigitChar u = false) (hx : u.toNat ≠ 120) (hX : u.toNat ≠ 88)
    (hw : isJsWs u = false) :
    jsParseInt (ds ++ [u]) = some (dblOfInt ((digitsVal 10 ds : ℕ) : ℤ)) := by
  obtain ⟨d, ds', rfl⟩ := List.exists_cons_of_ne_nil hne
  have hd := digit_codes (hds d (List.mem_cons_self d ds'))
  have hnows : (d :: ds' ++ [u]).dropWhile isJsWs = d :: ds' ++ [u] := by
    apply dropWhile_all_false
    intro c hc
    rcases List.mem_append.mp hc with hc | hc
    · exact not_ws_of_digit (hds c hc)
    · simp at hc; simpa [hc] using hw
  have hbody : parseIntBody (d :: ds' ++ [u]) = parseDigits 10 (d :: ds' ++ [u]) := by
    apply parseIntBody_not_hex
    intro c0 c1 rest hsh
    cases ds' with
    | nil =>
      simp at hsh
      obtain ⟨rfl, rfl, -⟩ := hsh
      rintro ⟨-, h | h⟩
      · exact hx h
      · exact hX h
    | cons d2 ds'' =>
      simp at hsh
      obtain ⟨rfl, rfl, -⟩ := hsh
      have hd2 := digit_codes (hds d2 (by simp))
      rintro ⟨-, h | h⟩ <;> omega
  have hdigits : parseDigits 10 (d :: ds' ++ [u]) = some (digitsVal 10 (d :: ds')) :=
    parseDigits_digits_append hne hds (by simp [List.takeWhile, hu])
  unfold jsParseInt
  rw [show ((d :: ds') ++ [u] : List Char) = d :: (ds' ++ [u]) from rfl] at hnows ⊢
  rw [hnows]
  have h45 : ¬d.toNat = 45 := by omega
  have h43 : ¬d.toNat = 43 := by omega
  simp only [h45, h43, if_false]
  rw [show (d :: (ds' ++ [u]) : List Char) = (d :: ds') ++ [u] from rfl, hbody, hdigits]
  rfl

/-- The final character of a digit run with one appended character. -/
theorem lastCode_append (ds : List Char) (u : Char) :
    lastCode (ds ++ [u]) = u.toNat := by
  simp [lastCode, List.getLast?_concat]

/-- The string branch of the parser evaluated on a nonempty digit run with
one appended non-whitespace, non-digit, non-hex-marker character: the run
is read in decimal, rounded to a double, and the suffix dispatch sees
that character's code. -/
theorem parseReminderStringD_digits (ds : List Char) (u : Char)
    (hne : ds ≠ []) (hds : ∀ c ∈ ds, isDigitChar c = true)
    (hu : isDigitChar u = false) (hx : u.toNat ≠ 120) (hX : u.toNat ≠ 88)
    (hw : isJsWs u = false) :
    parseReminderStringD (String.mk (ds ++ [u])) =
      some (if u.toNat = 109 then dblOfInt ((digitsVal 10 ds : ℕ) : ℤ)
        else if u.toNat = 104 then (dblOfInt ((digitsVal 10 ds : ℕ) : ℤ)).mulPos 60
        else if u.toNat = 100 then
          ((dblOfInt ((digitsVal 10 ds : ℕ) : ℤ)).mulPos 24).mulPos 60
        else dblOfInt ((digitsVal 10 ds : ℕ) : ℤ)) := by
  have htrim : jsTrim (String.mk (ds ++ [u])).toList = ds ++ [u] := by
    apply jsTrim_of_no_ws
    intro c hc
    rcases List.mem_append.mp hc with hc | hc
    · exact not_ws_of_digit (hds c hc)
    · simp at hc; simpa [hc] using hw
  unfold parseReminderStringD
  simp only [htrim, jsParseInt_digits_append hne hds hu hx hX hw, lastCode_append]
  split_ifs <;> rfl

/-- Non-number inputs take the `String()`-then-parse branch. -/
theorem parse_nonnum (v : JSValue) (hv : jsIsNum v = false) :
    parseReminderTime v = (parseReminderStringD (jsToString v)).map DblInt.toJSNum := by
  cases v <;> first | rfl | simp [jsIsNum] at hv

/-- The string branch fails exactly when `parseInt` fails (an Infinity
from an overflowing digit run is a success of `parseInt`, not a
failure). -/
theorem parseReminderStringD_none (s : String) :
    parseReminderStringD s = none ↔ jsParseInt (jsTrim s.toList) = none := by
  unfold parseReminderStringD
  cases h : jsParseInt (jsTrim s.toList) with
  | none => simp [show jsTrim s.data = jsTrim s.toList from rfl, h]
  | some z =>
    simp only [show jsTrim s.data = jsTrim s.toList from rfl, h]
    constructor
    · intro hc
      revert hc
      split
      · simp
      · split
        · simp
        · split <;> simp
    · intro hc
      simp at hc

/-- Integers up to 2^53 round to themselves. -/
theorem roundNatToDouble_small {n : ℕ} (h : n ≤ 2 ^ 53) :
    roundNatToDouble n = some n := by
  unfold roundNatToDouble
  rw [if_pos h]

/-- The double of a natural number up to 2^53 is exact. -/
theorem dblOfInt_natCast_small {n : ℕ} (h : n ≤ 2 ^ 53) :
    dblOfInt ((n : ℕ) : ℤ) = DblInt.fin ((n : ℕ) : ℤ) := by
  unfold dblOfInt
  rw [if_pos (Int.natCast_nonneg n)]
  rw [show ((n : ℕ) : ℤ).toNat = n from Int.toNat_natCast n]
  rw [roundNatToDouble_small h]

/-! ## Claim C1 -/

/-- Multiplying an exact small integer double by a positive constant stays
exact while the product is at most 2^53. -/
theorem mulPos_fin_nat (n k : ℕ) (h : k * n ≤ 2 ^ 53) :
    (DblInt.fin ((n : ℕ) : ℤ)).mulPos k = DblInt.fin (((k * n : ℕ) : ℤ)) := by
  have h1 : ((n : ℕ) : ℤ) * ((k : ℕ) : ℤ) = (((k * n : ℕ)) : ℤ) := by push_cast; ring
  calc (DblInt.fin ((n : ℕ) : ℤ)).mulPos k
      = dblOfInt (((n : ℕ) : ℤ) * ((k : ℕ) : ℤ)) := rfl
    _ = dblOfInt (((k * n : ℕ)) : ℤ) := by rw [h1]
    _ = DblInt.fin (((k * n : ℕ)) : ℤ) := dblOfInt_natCast_small h

set_option maxRecDepth 10000 in
/-- Counterexample to C1's general digit-string law as stated: `parseInt`
returns a double, so the digit string for 2^53 + 1 = 9007199254740993 —
whose exact value the fold computes — parses (with the 'm' suffix) to the
rounded double 9007199254740992, not to the digit string's value. -/
theorem c1_duration_parser_cex :
    digitsVal 10 ("9007199254740993".toList) = 9007199254740993 ∧
    parseReminderTime (.str "9007199254740993m") =
      some (JSNum.fin 9007199254740992) ∧
    (JSNum.fin (9007199254740992 : ℚ)) ≠ JSNum.fin (9007199254740993 : ℚ) := by
  exact ⟨by decide, by decide, by decide⟩

/-- Claim C1 (amended): the duration parser returns the spec's stated
results on its test vectors — `parse(30) = 30`, `parse("30m") = 30`,
`parse("2h") = 120`, `parse("1d") = 1440`, `parse("45") = 45`,
`parse("5x") = 5` (unknown suffix falls through to minutes),
`parse("abc")` fails, and `parse("  10m  ") = 10` — and a nonempty
decimal digit string `n` followed by `m` parses to `n`, by `h` to
`60 * n`, and by `d` to `1440 * n`, provided `1440 * n` does not exceed
2^53, the range in which the program's double arithmetic is exact
(beyond it, `parseInt` and the suffix multiplications round). -/
theorem c1_duration_parser_amended :
    (parseReminderTime (.num 30) = some (JSNum.fin 30) ∧
      parseReminderTime (.str "30m") = some (JSNum.fin 30) ∧
      parseReminderTime (.str "2h") = some (JSNum.fin 120) ∧
      parseReminderTime (.str "1d") = some (JSNum.fin 1440) ∧
      parseReminderTime (.str "45") = some (JSNum.fin 45) ∧
      parseReminderTime (.str "5x") = some (JSNum.fin 5) ∧
      parseReminderTime (.str "abc") = none ∧
      parseReminderTime (.str "  10m  ") = some (JSNum.fin 10)) ∧
    (∀ ds : List Char, ds ≠ [] → (∀ c ∈ ds, isDigitChar c = true) →
      1440 * digitsVal 10 ds ≤ 2 ^ 53 →
      parseReminderTime (.str (String.mk (ds ++ ['m']))) =
        some (JSNum.fin ((digitsVal 10 ds : ℚ))) ∧
      parseReminderTime (.str (String.mk (ds ++ ['h']))) =
        some (JSNum.fin (((60 * digitsVal 10 ds : ℕ) : ℚ))) ∧
      parseReminderTime (.str (String.mk (ds ++ ['d']))) =
        some (JSNum.fin (((1440 * digitsVal 10 ds : ℕ) : ℚ)))) := by
  constructor
  · exact ⟨by decide, by decide, by decide, by decide, by decide, by decide,
      by decide, by decide⟩
  · intro ds hne hds hbound
    have hm := parseReminderStringD_digits ds 'm' hne hds (by decide) (by decide)
      (by decide) (by decide)
    have hh := parseReminderStringD_digits ds 'h' hne hds (by decide) (by decide)
      (by decide) (by decide)
    have hd := parseReminderStringD_digits ds 'd' hne hds (by decide) (by decide)
      (by decide) (by decide)
    rw [show ('m').toNat = 109 from by decide] at hm
    rw [show ('h').toNat = 104 from by decide] at hh
    rw [show ('d').toNat = 100 from by decide] at hd
    norm_num at hm hh hd
    have hn53 : digitsVal 10 ds ≤ 2 ^ 53 :=
      le_trans (Nat.le_mul_of_pos_left _ (by norm_num)) hbound
    have h2453 : 24 * digitsVal 10 ds ≤ 2 ^ 53 :=
      le_trans (Nat.mul_le_mul_right _ (by norm_num)) hbound
    have h6053 : 60 * digitsVal 10 ds ≤ 2 ^ 53 :=
      le_trans (Nat.mul_le_mul_right _ (by norm_num)) hbound
    refine ⟨?_, ?_, ?_⟩
    · rw [parse_nonnum (.str (String.mk (ds ++ ['m']))) rfl,
        show jsToString (.str (String.mk (ds ++ ['m']))) =
          String.mk (ds ++ ['m']) from rfl, hm, dblOfInt_natCast_small hn53]
      simp [DblInt.toJSNum]
    · rw [parse_nonnum (.str (String.mk (ds ++ ['h']))) rfl,
        show jsToString (.str (String.mk (ds ++ ['h']))) =
          String.mk (ds ++ ['h']) from rfl, hh, dblOfInt_natCast_small hn53,
        mulPos_fin_nat (digitsVal 10 ds) 60 h6053]
      simp [DblInt.toJSNum]
    · rw [parse_nonnum (.str (String.mk (ds ++ ['d']))) rfl,
        show jsToString (.str (String.mk (ds ++ ['d']))) =
          String.mk (ds ++ ['d']) from rfl, hd, dblOfInt_natCast_small hn53,
        mulPos_fin_nat (digitsVal 10 ds) 24 h2453,
        mulPos_fin_nat (24 * digitsVal 10 ds) 60 (by
          rw [show 60 * (24 * digitsVal 10 ds) = 1440 * digitsVal 10 ds from by ring]
          exact hbound)]
      simp [DblInt.toJSNum]
      ring

/-- Witness for C1 (amended): the general digit-string statement applied
to "42". -/
theorem c1_duration_parser_amended_witness :
    ((['4', '2'] : List Char) ≠ [] ∧
      (∀ c ∈ (['4', '2'] : List Char), isDigitChar c = true) ∧
      1440 * digitsVal 10 ['4', '2'] ≤ 2 ^ 53) ∧
    (parseReminderTime (.str (String.mk (['4', '2'] ++ ['m']))) =
        some (JSNum.fin ((digitsVal 10 ['4', '2'] : ℚ))) ∧
      parseReminderTime (.str (String.mk (['4', '2'] ++ ['h']))) =
        some (JSNum.fin (((60 * digitsVal 10 ['4', '2'] : ℕ) : ℚ))) ∧
      parseReminderTime (.str (String.mk (['4', '2'] ++ ['d']))) =
        some (JSNum.fin (((1440 * digitsVal 10 ['4', '2'] : ℕ) : ℚ)))) :=
  ⟨⟨by decide, by decide, by decide⟩,
    c1_duration_parser_amended.2 ['4', '2'] (by decide) (by decide) (by decide)⟩

/-! ## Claim C2 -/

/-- Counterexample to C2 as stated: the numeric input 5/2 (the JSON number
2.5, exactly representable as a double) is returned unchanged by the
parser, and it is not an integer minute count — its denominator is 2. -/
theorem c2_integer_result_cex :
    parseReminderTime (.num (mkRat 5 2)) = some (JSNum.fin (mkRat 5 2)) ∧
    (mkRat 5 2).den = 2 ∧ ((5 : ℚ) = (mkRat 5 2) * 2) := by
  refine ⟨by decide, by decide, ?_⟩
  have h : (mkRat 5 2 : ℚ) = (5 : ℚ) / 2 := by
    rw [Rat.mkRat_eq_div]
    norm_num
  rw [h]
  norm_num

set_option maxRecDepth 10000 in
/-- Claim C2 (amended): every numeric input is returned unchanged — so a
fractional numeric input yields a fractional result — and for every
non-numeric input the parser either fails explicitly with `null`, or
returns an integer minute count, or returns an infinity when the parsed
magnitude overflows the double range (a 309-digit run of nines rounds to
Infinity and is not rejected); it never returns a finite fraction from a
string and never silently turns an unparseable string into zero. -/
theorem c2_integer_result_amended :
    (∀ q : ℚ, parseReminderTime (.num q) = some (JSNum.fin q)) ∧
    (∀ v : JSValue, jsIsNum v = false →
      parseReminderTime v = none ∨
      (∃ k : ℤ, parseReminderTime v = some (JSNum.fin ((k : ℚ)))) ∨
      parseReminderTime v = some JSNum.posInf ∨
      parseReminderTime v = some JSNum.negInf) ∧
    parseReminderTime (.str (String.mk (List.replicate 309 '9'))) =
      some JSNum.posInf := by
  refine ⟨fun q => rfl, ?_, by decide⟩
  intro v hv
  rw [parse_nonnum v hv]
  rcases h : parseReminderStringD (jsToString v) with _ | d
  · exact Or.inl (by simp)
  · cases d with
    | fin z => exact Or.inr (Or.inl ⟨z, by simp [DblInt.toJSNum]⟩)
    | posInf => exact Or.inr (Or.inr (Or.inl (by simp [DblInt.toJSNum])))
    | negInf => exact Or.inr (Or.inr (Or.inr (by simp [DblInt.toJSNum])))

/-- Witness for C2 (amended): the string "abc" is not a number and the
parser fails on it explicitly. -/
theorem c2_integer_result_amended_witness :
    jsIsNum (JSValue.str "abc") = false ∧
    (parseReminderTime (JSValue.str "abc") = none ∨
      (∃ k : ℤ, parseReminderTime (JSValue.str "abc") = some (JSNum.fin ((k : ℚ)))) ∨
      parseReminderTime (JSValue.str "abc") = some JSNum.posInf ∨
      parseReminderTime (JSValue.str "abc") = some JSNum.negInf) :=
  ⟨by decide, c2_integer_result_amended.2.1 (JSValue.str "abc") (by decide)⟩

/-! ## Claim C3 -/

/-- Counterexample to C3 as stated: the trimmed string "-5" has no leading
decimal digit characters, so the spec's decimal-integer-prefix parse fails
on it, yet the parser accepts it (through `parseInt`'s sign handling) and
returns -5 instead of failing with the InvalidFormat signal. -/
theorem c3_decimal_prefix_cex :
    specDecimalPrefixParse (jsTrim ("-5".toList)) = none ∧
    parseReminderTime (JSValue.str "-5") = some (JSNum.fin (-5)) := by
  exact ⟨by decide, by decide⟩

/-- Claim C3 (amended): for a string input the numeric part comes from
JavaScript `parseInt`: the parser fails (with the `null` signal) exactly
when `parseInt` yields NaN on the trimmed text, and whenever the trimmed
text begins with a decimal digit, does not begin with the hex prefix
`0x`/`0X`, and its leading digit run denotes a value of at most 2^53,
`parseInt` returns exactly the decimal-integer-prefix parse the spec
describes (sign-prefixed strings, hex-prefixed strings, and digit runs
beyond 2^53 — which round to the nearest double — are the exceptions). -/
theorem c3_decimal_prefix_amended : ∀ s : String,
    (parseReminderTime (.str s) = none ↔ jsParseInt (jsTrim s.toList) = none) ∧
    (∀ c cs', jsTrim s.toList = c :: cs' → isDigitChar c = true →
      (c.toNat = 48 → ∀ c2 cs'', cs' = c2 :: cs'' → c2.toNat ≠ 120 ∧ c2.toNat ≠ 88) →
      digitsVal 10 ((c :: cs').takeWhile isDigitChar) ≤ 2 ^ 53 →
      jsParseInt (jsTrim s.toList) =
        (specDecimalPrefixParse (jsTrim s.toList)).map
          (fun (n : ℕ) => DblInt.fin (n : ℤ))) := by
  intro s
  constructor
  · rw [parse_nonnum (.str s) rfl, show jsToString (.str s) = s from rfl]
    cases h : parseReminderStringD s with
    | none =>
      simp
      exact (parseReminderStringD_none s).mp h
    | some z =>
      simp only [Option.map_some']
      constructor
      · intro hc
        simp at hc
      · intro hc
        have h2 := (parseReminderStringD_none s).mpr hc
        rw [h] at h2
        simp at h2
  · intro c cs' htr hdc hhex hbound
    rw [htr]
    have hcd := digit_codes hdc
    have hdrop : (c :: cs').dropWhile isJsWs = c :: cs' := by
      simp [List.dropWhile, not_ws_of_digit hdc]
    have hbody : parseIntBody (c :: cs') = parseDigits 10 (c :: cs') := by
      apply parseIntBody_not_hex
      intro c0 c1 rest hsh
      injection hsh with h1 h2
      rintro ⟨h48, hxx⟩
      have := hhex (by rw [h1]; exact h48) c1 rest h2
      rcases hxx with hxx | hxx
      · exact this.1 hxx
      · exact this.2 hxx
    have hpd : parseDigits 10 (c :: cs') =
        some (digitsVal 10 ((c :: cs').takeWhile isDigitChar)) := by
      unfold parseDigits
      rw [isRadixDigit_ten]
      have hstep : (c :: cs').takeWhile isDigitChar =
          c :: cs'.takeWhile isDigitChar := by
        simp [List.takeWhile, hdc]
      rw [hstep]
      simp
    unfold jsParseInt
    rw [hdrop]
    have h45 : ¬c.toNat = 45 := by omega
    have h43 : ¬c.toNat = 43 := by omega
    simp only [h45, h43, if_false]
    rw [hbody, specDecimal_eq_parseDigits, hpd]
    simp only [Option.map_some']
    rw [dblOfInt_natCast_small hbound]

/-- Witness for C3 (amended): the string "42x" — trimmed text starts with
the digit 4, no hex prefix, small value, and `parseInt` agrees with the
decimal prefix parse. -/
theorem c3_decimal_prefix_amended_witness :
    (jsTrim ("42x".toList) = '4' :: ['2', 'x'] ∧ isDigitChar '4' = true ∧
      digitsVal 10 (('4' :: ['2', 'x']).takeWhile isDigitChar) ≤ 2 ^ 53) ∧
    jsParseInt (jsTrim ("42x".toList)) =
      (specDecimalPrefixParse (jsTrim ("42x".toList))).map
        (fun (n : ℕ) => DblInt.fin (n : ℤ)) :=
  ⟨⟨by decide, by decide, by decide⟩,
    (c3_decimal_prefix_amended "42x").2 '4' ['2', 'x'] (by decide) (by decide)
      (fun h => absurd h (by decide)) (by decide)⟩

/-! ## Claim C10 -/

/-- Claim C10: inputs that are neither numbers nor strings are converted
with `String()` and sent through the string-parsing path: the one-element
array [30] stringifies to "30" and parses to 30 minutes, while null, true
and a plain object stringify to digit-free text and fail with the parser's
`null` failure signal. -/
theorem c10_stringify_fallback :
    (∀ v : JSValue, jsIsNum v = false →
      parseReminderTime v = parseReminderTime (.str (jsToString v))) ∧
    parseReminderTime (.arr [.num 30]) = some (JSNum.fin 30) ∧
    parseReminderTime .null = none ∧
    parseReminderTime (.bool true) = none ∧
    parseReminderTime (.obj []) = none := by
  refine ⟨?_, by decide, by decide, by decide, by decide⟩
  intro v hv
  rw [parse_nonnum v hv]
  rfl

/-- Witness for C10: the non-number, non-string value null goes through
its string form. -/
theorem c10_stringify_fallback_witness :
    jsIsNum JSValue.null = false ∧
    parseReminderTime JSValue.null = parseReminderTime (.str (jsToString JSValue.null)) :=
  ⟨by decide, c10_stringify_fallback.1 JSValue.null (by decide)⟩

/-! ## Schedule calculator facts -/

/-- Claim C4: in the intake handler the confirmation notification is
dispatched before the reminder is persisted (whenever a record insertion
happens, the event log is exactly the mail followed by the insertion), and
if the dispatch fails on a request that passed validation, the response is
a 500 server error and the store is unchanged. -/
theorem c4_notify_then_persist :
    (∀ body now saveOk store m,
      jsFalsy body.email = false → jsFalsy body.problemUrl = false →
      jsFalsy body.reminderMinutes = false →
      parseReminderTime body.reminderMinutes = some m → jsLeZero m = false →
      (setReminder body now false saveOk store).status = 500 ∧
      (setReminder body now false saveOk store).store = store) ∧
    (∀ body now mailOk saveOk store r,
      IEvent.insertRecord r ∈ (setReminder body now mailOk saveOk store).events →
      (setReminder body now mailOk saveOk store).events =
        [IEvent.confirmationMail body.email, IEvent.insertRecord r]) := by
  constructor
  · intro body now saveOk store m h1 h2 h3 hp hjz
    cases hcalc : calculateReminderTime m now with
    | none => simp [setReminder, h1, h2, h3, hp, hjz, hcalc]
    | some sf => simp [setReminder, h1, h2, h3, hp, hjz, hcalc]
  · intro body now mailOk saveOk store r hr
    by_cases h1 : (jsFalsy body.email || jsFalsy body.problemUrl ||
        jsFalsy body.reminderMinutes) = true
    · simp [setReminder, h1] at hr
    · rw [Bool.not_eq_true] at h1
      cases hp : parseReminderTime body.reminderMinutes with
      | none => simp [setReminder, h1, hp] at hr
      | some m =>
        cases hjz : jsLeZero m with
        | true => simp [setReminder, h1, hp, hjz] at hr
        | false =>
          cases hcalc : calculateReminderTime m now with
          | none =>
            cases mailOk <;> simp [setReminder, h1, hp, hjz, hcalc] at hr
          | some sf =>
            cases mailOk with
            | false => simp [setReminder, h1, hp, hjz, hcalc] at hr
            | true =>
              cases saveOk with
              | false => simp [setReminder, h1, hp, hjz, hcalc] at hr
              | true =>
                simp [setReminder, h1, hp, hjz, hcalc] at hr ⊢
                simp [hr]

/-- Witness for C4: a validated request ("30m") whose mail dispatch fails
gets a 500 and leaves the store unchanged. -/
theorem c4_notify_then_persist_witness :
    (jsFalsy (JSValue.str "a@b") = false ∧ jsFalsy (JSValue.str "u") = false ∧
      jsFalsy (JSValue.str "30m") = false ∧
      parseReminderTime (JSValue.str "30m") = some (JSNum.fin 30) ∧
      jsLeZero (JSNum.fin 30) = false) ∧
    ((setReminder ⟨JSValue.str "a@b", JSValue.str "u", JSValue.undef, JSValue.str "30m"⟩
        7 false true []).status = 500 ∧
      (setReminder ⟨JSValue.str "a@b", JSValue.str "u", JSValue.undef, JSValue.str "30m"⟩
        7 false true []).store = []) :=
  ⟨⟨by decide, by decide, by decide, by decide, by decide⟩,
    c4_notify_then_persist.1 ⟨JSValue.str "a@b", JSValue.str "u", JSValue.undef,
      JSValue.str "30m"⟩ 7 true [] (JSNum.fin 30) (by decide) (by decide) (by decide)
      (by decide) (by decide)⟩

/-! ## Claim C8 -/

/-- The effect log of fully processing a run of due records in order. -/
def mkEvents : List (ℕ × Reminder) → List SEvent
  | [] => []
  | p :: ps => SEvent.mail p.1 :: SEvent.markSent p.1 :: mkEvents ps

/-- The store after the `sent = true` updates of a run of due records. -/
def applySent : List Reminder → List (ℕ × Reminder) → List Reminder
  | s, [] => s
  | s, p :: ps => applySent (s.set p.1 (setSentR p.2)) ps

theorem lt_length_of_getq {α : Type _} {l : List α} {i : ℕ} {a : α}
    (h : l[i]? = some a) : i < l.length := by
  induction l generalizing i with
  | nil => simp at h
  | cons x xs ih =>
    cases i with
    | zero => simp
    | succ i => simpa using ih (by simpa using h)

theorem applySent_getq_notin :
    ∀ (ps : List (ℕ × Reminder)) (s : List Reminder) (i : ℕ),
    (∀ q ∈ ps, q.1 ≠ i) → (applySent s ps)[i]? = s[i]?
  | [], s, i, _ => rfl
  | q :: ps, s, i, h => by
    rw [show applySent s (q :: ps) = applySent (s.set q.1 (setSentR q.2)) ps from rfl]
    rw [applySent_getq_notin ps _ i (fun q' hq' => h q' (List.mem_cons_of_mem q hq'))]
    exact getq_set_other _ s q.1 i (h q (List.mem_cons_self q ps))

theorem applySent_length :
    ∀ (ps : List (ℕ × Reminder)) (s : List Reminder),
    (applySent s ps).length = s.length
  | [], s => rfl
  | q :: ps, s => by
    rw [show applySent s (q :: ps) = applySent (s.set q.1 (setSentR q.2)) ps from rfl]
    rw [applySent_length ps]
    exact List.length_set s q.1 (setSentR q.2)

theorem applySent_getq_mem (ps : List (ℕ × Reminder)) :
    ∀ (s : List Reminder) (p : ℕ × Reminder), p ∈ ps →
    (∀ (j1 j2 : ℕ) (q1 q2 : ℕ × Reminder), j1 < j2 → ps[j1]? = some q1 → ps[j2]? = some q2 → q1.1 ≠ q2.1) →
    s[p.1]? = some p.2 →
    (applySent s ps)[p.1]? = some (setSentR p.2) := by
  induction ps with
  | nil => intro s p h; simp at h
  | cons q ps ih =>
    intro s p hmem hnd hsp
    rw [show applySent s (q :: ps) = applySent (s.set q.1 (setSentR q.2)) ps from rfl]
    rcases List.mem_cons.mp hmem with rfl | hmem'
    · rw [applySent_getq_notin ps _ p.1 ?notin]
      · exact getq_set_self _ s p.1 (lt_length_of_getq hsp)
      case notin =>
        intro q' hq'
        obtain ⟨j, hj⟩ := getq_of_mem hq'
        exact fun hcontra =>
          (hnd 0 (j + 1) p q' (by omega) (by simp) (by simpa using hj)) hcontra.symm
    · apply ih _ p hmem'
      · intro j1 j2 q1 q2 hlt h1 h2
        exact hnd (j1 + 1) (j2 + 1) q1 q2 (by omega) (by simpa using h1)
          (by simpa using h2)
      · obtain ⟨j, hj⟩ := getq_of_mem hmem'
        have hne := hnd 0 (j + 1) q p (by omega) (by simp) (by simpa using hj)
        rw [getq_set_other _ s q.1 p.1 hne]
        exact hsp

/-- A fully successful sweep loop marks every fetched record and logs the
full event list. -/
theorem sweepLoop_success (mo so : ℕ → Bool) (due : List (ℕ × Reminder)) :
    ∀ (k : ℕ) (store : List Reminder) (evs : List SEvent),
    (∀ j, j < due.length → mo (k + j) = true ∧ so (k + j) = true) →
    sweepLoop mo so k due store evs = (true, applySent store due, evs ++ mkEvents due) := by
  induction due with
  | nil =>
    intro k store evs _
    simp [sweepLoop, applySent, mkEvents]
  | cons p rest ih =>
    intro k store evs h
    have h0 := h 0 (by simp)
    rw [Nat.add_zero] at h0
    rw [show sweepLoop mo so k (p :: rest) store evs =
      sweepLoop mo so (k + 1) rest (store.set p.1 (setSentR p.2))
        (evs ++ [SEvent.mail p.1, SEvent.markSent p.1]) from by
      simp [sweepLoop, h0.1, h0.2]]
    rw [ih (k + 1) _ _ ?_]
    · simp [applySent, mkEvents]
    · intro j hj
      have h2 := h (j + 1) (by simp; omega)
      rw [show k + 1 + j = k + (j + 1) from by omega]
      exact h2

/-- A sweep loop that fails at relative step `m` (all earlier steps
succeeding) answers false, leaves exactly the first `m` records marked,
and logs the events of those records plus, when only the save failed, the
mail of the failing record. -/
theorem sweepLoop_abort (mo so : ℕ → Bool) :
    ∀ (m : ℕ) (due : List (ℕ × Reminder)) (k : ℕ) (store : List Reminder)
      (evs : List SEvent),
    m < due.length →
    (∀ j, j < m → mo (k + j) = true ∧ so (k + j) = true) →
    ¬(mo (k + m) = true ∧ so (k + m) = true) →
    ∃ evtail,
      sweepLoop mo so k due store evs =
        (false, applySent store (due.take m), evs ++ mkEvents (due.take m) ++ evtail) ∧
      (evtail = [] ∨
        ∃ p, due[m]? = some p ∧ evtail = [SEvent.mail p.1]) := by
  intro m
  induction m with
  | zero =>
    intro due k store evs hlen hpre hfail
    obtain ⟨p, rest, rfl⟩ :=
      List.exists_cons_of_ne_nil (show due ≠ [] from
        List.ne_nil_of_length_pos (by omega))
    rw [Nat.add_zero] at hfail
    cases hmo : mo k with
    | false =>
      refine ⟨[], ?_, Or.inl rfl⟩
      simp [sweepLoop, hmo, applySent, mkEvents]
    | true =>
      have hso : so k = false := by
        cases hso : so k
        · rfl
        · exact absurd ⟨hmo, hso⟩ hfail
      refine ⟨[SEvent.mail p.1], ?_, Or.inr ⟨p, by simp, rfl⟩⟩
      simp [sweepLoop, hmo, hso, applySent, mkEvents]
  | succ m ih =>
    intro due k store evs hlen hpre hfail
    obtain ⟨p, rest, rfl⟩ :=
      List.exists_cons_of_ne_nil (show due ≠ [] from
        List.ne_nil_of_length_pos (by omega))
    have h0 := hpre 0 (by omega)
    rw [Nat.add_zero] at h0
    obtain ⟨evtail, heq, hcase⟩ := ih rest (k + 1) (store.set p.1 (setSentR p.2))
      (evs ++ [SEvent.mail p.1, SEvent.markSent p.1]) (by simp at hlen; omega)
      (fun j hj => by
        rw [show k + 1 + j = k + (j + 1) from by omega]
        exact hpre (j + 1) (by omega))
      (by
        rw [show k + 1 + m = k + (m + 1) from by omega]
        exact hfail)
    refine ⟨evtail, ?_, ?_⟩
    · rw [show sweepLoop mo so k (p :: rest) store evs =
        sweepLoop mo so (k + 1) rest (store.set p.1 (setSentR p.2))
          (evs ++ [SEvent.mail p.1, SEvent.markSent p.1]) from by
        simp [sweepLoop, h0.1, h0.2]]
      rw [heq]
      simp [applySent, mkEvents]
    · rcases hcase with rfl | ⟨q, hq, rfl⟩
      · exact Or.inl rfl
      · exact Or.inr ⟨q, by simpa using hq, rfl⟩

/-- Every event the loop logs beyond its input names a record of the
processed run. -/
theorem mem_mkEvents :
    ∀ (ps : List (ℕ × Reminder)) (e : SEvent), e ∈ mkEvents ps →
    ∃ q ∈ ps, e = SEvent.mail q.1 ∨ e = SEvent.markSent q.1
  | [], e, h => by simp [mkEvents] at h
  | p :: ps, e, h => by
    rw [mkEvents] at h
    rcases List.mem_cons.mp h with rfl | h
    · exact ⟨p, List.mem_cons_self p ps, Or.inl rfl⟩
    · rcases List.mem_cons.mp h with rfl | h
      · exact ⟨p, List.mem_cons_self p ps, Or.inr rfl⟩
      · obtain ⟨q, hq, hor⟩ := mem_mkEvents ps e h
        exact ⟨q, List.mem_cons_of_mem p hq, hor⟩

/-- The loop only appends to its incoming event log. -/
theorem sweepLoop_evs_extend (mo so : ℕ → Bool) :
    ∀ (due : List (ℕ × Reminder)) (k : ℕ) (store : List Reminder)
      (evs : List SEvent),
    ∃ t, (sweepLoop mo so k due store evs).2.2 = evs ++ t
  | [], k, store, evs => ⟨[], by simp [sweepLoop]⟩
  | p :: rest, k, store, evs => by
    cases hmo : mo k with
    | false => exact ⟨[], by simp [sweepLoop, hmo]⟩
    | true =>
      cases hso : so k with
      | false => exact ⟨[SEvent.mail p.1], by simp [sweepLoop, hmo, hso]⟩
      | true =>
        obtain ⟨t, ht⟩ := sweepLoop_evs_extend mo so rest (k + 1)
          (store.set p.1 (setSentR p.2)) (evs ++ [SEvent.mail p.1, SEvent.markSent p.1])
        refine ⟨[SEvent.mail p.1, SEvent.markSent p.1] ++ t, ?_⟩
        rw [show sweepLoop mo so k (p :: rest) store evs =
          sweepLoop mo so (k + 1) rest (store.set p.1 (setSentR p.2))
            (evs ++ [SEvent.mail p.1, SEvent.markSent p.1]) from by
          simp [sweepLoop, hmo, hso]]
        rw [ht]
        simp

/-- Whatever the loop does to the store, each row is either unchanged or
has exactly its `sent` flag turned from false to true, and in the latter
case the row's reminder mail is in the event log. -/
theorem sweepLoop_sent_invariant (mo so : ℕ → Bool) :
    ∀ (due : List (ℕ × Reminder)) (k : ℕ) (store : List Reminder)
      (evs : List SEvent),
    (∀ q ∈ due, store[q.1]? = some q.2 ∧ q.2.sent = false) →
    (∀ (j1 j2 : ℕ) (q1 q2 : ℕ × Reminder), j1 < j2 → due[j1]? = some q1 →
      due[j2]? = some q2 → q1.1 ≠ q2.1) →
    ∀ i : ℕ, ∀ r, store[i]? = some r →
    ∃ r2, ((sweepLoop mo so k due store evs).2.1)[i]? = some r2 ∧
      (r2 = r ∨ (r.sent = false ∧ r2 = setSentR r ∧
        SEvent.mail i ∈ (sweepLoop mo so k due store evs).2.2)) := by
  intro due
  induction due with
  | nil =>
    intro k store evs _ _ i r hir
    exact ⟨r, by simpa [sweepLoop] using hir, Or.inl rfl⟩
  | cons p rest ih =>
    intro k store evs hdue hnd i r hir
    cases hmo : mo k with
    | false =>
      refine ⟨r, ?_, Or.inl rfl⟩
      simpa [sweepLoop, hmo] using hir
    | true =>
      cases hso : so k with
      | false =>
        refine ⟨r, ?_, Or.inl rfl⟩
        simpa [sweepLoop, hmo, hso] using hir
      | true =>
        have hstep : sweepLoop mo so k (p :: rest) store evs =
            sweepLoop mo so (k + 1) rest (store.set p.1 (setSentR p.2))
              (evs ++ [SEvent.mail p.1, SEvent.markSent p.1]) := by
          simp [sweepLoop, hmo, hso]
        have hdue' : ∀ q ∈ rest,
            (store.set p.1 (setSentR p.2))[q.1]? = some q.2 ∧ q.2.sent = false := by
          intro q hq
          obtain ⟨j, hj⟩ := getq_of_mem hq
          have hne := hnd 0 (j + 1) p q (by omega) (by simp) (by simpa using hj)
          rw [getq_set_other _ store p.1 q.1 hne]
          exact hdue q (List.mem_cons_of_mem p hq)
        have hnd' : ∀ (j1 j2 : ℕ) (q1 q2 : ℕ × Reminder), j1 < j2 → rest[j1]? = some q1 →
            rest[j2]? = some q2 → q1.1 ≠ q2.1 := by
          intro j1 j2 q1 q2 hlt h1 h2
          exact hnd (j1 + 1) (j2 + 1) q1 q2 (by omega) (by simpa using h1)
            (by simpa using h2)
        rw [hstep]
        by_cases hip : i = p.1
        · have hp0 := hdue p (List.mem_cons_self p rest)
          have hrp : r = p.2 := by
            rw [hip, hp0.1] at hir
            exact (Option.some_injective _ hir).symm
          have hlen2 : p.1 < store.length := by
            rw [← hip]
            exact lt_length_of_getq hir
          have hset : (store.set p.1 (setSentR p.2))[i]? = some (setSentR p.2) := by
            rw [hip]
            exact getq_set_self _ store p.1 hlen2
          obtain ⟨r2, hr2, hcase⟩ := ih (k + 1) (store.set p.1 (setSentR p.2))
            (evs ++ [SEvent.mail p.1, SEvent.markSent p.1]) hdue' hnd' i
            (setSentR p.2) hset
          refine ⟨r2, hr2, Or.inr ⟨by rw [hrp]; exact hp0.2, ?_, ?_⟩⟩
          · rcases hcase with rfl | ⟨hsent, -, -⟩
            · rw [hrp]
            · simp [setSentR] at hsent
          · obtain ⟨t, ht⟩ := sweepLoop_evs_extend mo so rest (k + 1)
              (store.set p.1 (setSentR p.2)) (evs ++ [SEvent.mail p.1, SEvent.markSent p.1])
            rw [ht]
            simp [hip]
        · have hir' : (store.set p.1 (setSentR p.2))[i]? = some r := by
            rw [getq_set_other _ store p.1 i (fun h => hip h.symm)]
            exact hir
          obtain ⟨r2, hr2, hcase⟩ := ih (k + 1) _ _ hdue' hnd' i r hir'
          exact ⟨r2, hr2, hcase⟩

/-! ## Facts about the due-record query -/

/-- A due record is not yet sent. -/
theorem isDue_sent_false {now : ℤ} {r : Reminder} (h : isDue now r = true) :
    r.sent = false := by
  simp [isDue] at h
  exact h.2

/-- Every fetched pair points back into the store at a due record. -/
theorem dueIdx_mem_char (now : ℤ) :
    ∀ (l : List Reminder) (b : ℕ) (q : ℕ × Reminder), q ∈ dueIdx now b l →
    b ≤ q.1 ∧ l[q.1 - b]? = some q.2 ∧ isDue now q.2 = true := by
  intro l
  induction l with
  | nil =>
    intro b q h
    simp [dueIdx] at h
  | cons r rs ih =>
    intro b q h
    rw [dueIdx] at h
    by_cases hd : isDue now r = true
    · rw [if_pos hd] at h
      rcases List.mem_cons.mp h with rfl | h'
      · exact ⟨le_refl _, by simp, hd⟩
      · obtain ⟨hb, hget, hdue⟩ := ih (b + 1) q h'
        refine ⟨by omega, ?_, hdue⟩
        rw [show q.1 - b = (q.1 - (b + 1)) + 1 from by omega]
        simpa using hget
    · rw [if_neg hd] at h
      obtain ⟨hb, hget, hdue⟩ := ih (b + 1) q h
      refine ⟨by omega, ?_, hdue⟩
      rw [show q.1 - b = (q.1 - (b + 1)) + 1 from by omega]
      simpa using hget

/-- The fetched pairs carry strictly increasing store positions. -/
theorem dueIdx_getq_lt (now : ℤ) :
    ∀ (l : List Reminder) (b j1 j2 : ℕ) (p1 p2 : ℕ × Reminder), j1 < j2 →
    (dueIdx now b l)[j1]? = some p1 → (dueIdx now b l)[j2]? = some p2 →
    p1.1 < p2.1 := by
  intro l
  induction l with
  | nil =>
    intro b j1 j2 p1 p2 h h1 h2
    simp [dueIdx] at h1
  | cons r rs ih =>
    intro b j1 j2 p1 p2 hlt h1 h2
    rw [dueIdx] at h1 h2
    by_cases hd : isDue now r = true
    · rw [if_pos hd] at h1 h2
      cases j1 with
      | zero =>
        simp at h1
        cases j2 with
        | zero => omega
        | succ j2' =>
          simp only [List.getElem?_cons_succ] at h2
          have := (dueIdx_mem_char now rs (b + 1) p2 (mem_of_getq h2)).1
          rw [← h1]
          simpa using by omega
      | succ j1' =>
        cases j2 with
        | zero => omega
        | succ j2' =>
          simp only [List.getElem?_cons_succ] at h1 h2
          exact ih (b + 1) j1' j2' p1 p2 (by omega) h1 h2
    · rw [if_neg hd] at h1 h2
      exact ih (b + 1) j1 j2 p1 p2 hlt h1 h2

/-- The fetch returns as many records as satisfy the due filter. -/
theorem dueIdx_length (now : ℤ) :
    ∀ (l : List Reminder) (b : ℕ),
    (dueIdx now b l).length = (l.filter (isDue now)).length := by
  intro l
  induction l with
  | nil => intro b; rfl
  | cons r rs ih =>
    intro b
    rw [dueIdx, List.filter_cons]
    by_cases hd : isDue now r = true
    · simp [hd, ih]
    · simp only [hd]
      simp [hd, ih (b + 1)]

/-- Every due record of the store is fetched, at its store position. -/
theorem dueIdx_of_getq (now : ℤ) :
    ∀ (l : List Reminder) (b j : ℕ) (r : Reminder),
    l[j]? = some r → isDue now r = true → (b + j, r) ∈ dueIdx now b l := by
  intro l
  induction l with
  | nil =>
    intro b j r h
    simp at h
  | cons x xs ih =>
    intro b j r h hdue
    cases j with
    | zero =>
      simp at h
      subst h
      rw [dueIdx, if_pos hdue]
      simp
    | succ j' =>
      simp only [List.getElem?_cons_succ] at h
      have hmem := ih (b + 1) j' r h hdue
      rw [show b + (j' + 1) = (b + 1) + j' from by omega]
      rw [dueIdx]
      by_cases hd : isDue now x = true
      · rw [if_pos hd]
        exact List.mem_cons_of_mem _ hmem
      · rw [if_neg hd]
        exact hmem

/-! ## Claim C5 -/

/-- Claim C5: a sweep with the correct secret in which every notification
and store update succeeds answers 200 with `processedReminders` equal to
the number of records satisfying `scheduledFor <= now` and `sent = false`;
it processes exactly the fetched records — the event log is the mail and
mark-sent of each fetched record in order, every due row is marked sent,
and every other row is untouched.  With zero due records the count is 0. -/
theorem c5_sweep_success (env : String → Option String) (now : ℤ) (mo so : ℕ → Bool)
    (store : List Reminder) (hmo : ∀ k, mo k = true) (hso : ∀ k, so k = true) :
    (checkReminders env (some "Sanjeev") now mo so store).status = 200 ∧
    (checkReminders env (some "Sanjeev") now mo so store).processedReminders =
      some ((store.filter (isDue now)).length) ∧
    (checkReminders env (some "Sanjeev") now mo so store).events =
      mkEvents (dueIdx now 0 store) ∧
    (checkReminders env (some "Sanjeev") now mo so store).store.length = store.length ∧
    (∀ i : ℕ, ∀ r, store[i]? = some r →
      (checkReminders env (some "Sanjeev") now mo so store).store[i]? =
        some (if isDue now r then setSentR r else r)) := by
  have hsweep := sweepLoop_success mo so (dueIdx now 0 store) 0 store []
    (fun j _ => ⟨hmo _, hso _⟩)
  have hck : checkReminders env (some "Sanjeev") now mo so store =
      ⟨200, some (dueIdx now 0 store).length, applySent store (dueIdx now 0 store),
        mkEvents (dueIdx now 0 store)⟩ := by
    unfold checkReminders
    rw [if_neg (by simp [expectedCronSecret])]
    simp only [hsweep, List.nil_append]
  rw [hck]
  refine ⟨rfl, by simp [dueIdx_length], rfl, applySent_length _ _, ?_⟩
  intro i r hir
  by_cases hdue : isDue now r = true
  · rw [if_pos hdue]
    exact applySent_getq_mem (dueIdx now 0 store) store (i, r)
      (by simpa using dueIdx_of_getq now store 0 i r hir hdue)
      (fun j1 j2 q1 q2 hlt h1 h2 =>
        Nat.ne_of_lt (dueIdx_getq_lt now store 0 j1 j2 q1 q2 hlt h1 h2))
      hir
  · rw [if_neg hdue]
    rw [applySent_getq_notin _ _ i ?_]
    · exact hir
    · intro q hq
      intro hqi
      obtain ⟨hb, hget, hd⟩ := dueIdx_mem_char now store 0 q hq
      rw [Nat.sub_zero, hqi, hir] at hget
      have h3 : r = q.2 := Option.some_injective _ hget
      rw [← h3] at hd
      exact hdue hd

/-- Witness for C5: a store holding one due and one not-due record, with
always-succeeding mail and save. -/
theorem c5_sweep_success_witness :
    ((∀ k : ℕ, (fun _ => true : ℕ → Bool) k = true) ∧
      (∀ k : ℕ, (fun _ => true : ℕ → Bool) k = true)) ∧
    ((checkReminders (fun _ => none) (some "Sanjeev") 50 (fun _ => true) (fun _ => true)
        [⟨JSValue.str "a", JSValue.str "u", JSValue.undef, 10, false, 0⟩,
          ⟨JSValue.str "b", JSValue.str "v", JSValue.undef, 99, false, 0⟩]).status = 200 ∧
      (checkReminders (fun _ => none) (some "Sanjeev") 50 (fun _ => true) (fun _ => true)
        [⟨JSValue.str "a", JSValue.str "u", JSValue.undef, 10, false, 0⟩,
          ⟨JSValue.str "b", JSValue.str "v", JSValue.undef, 99, false, 0⟩]).processedReminders =
        some (([⟨JSValue.str "a", JSValue.str "u", JSValue.undef, 10, false, 0⟩,
          ⟨JSValue.str "b", JSValue.str "v", JSValue.undef, 99, false, 0⟩] :
            List Reminder).filter (isDue 50)).length ∧
      (checkReminders (fun _ => none) (some "Sanjeev") 50 (fun _ => true) (fun _ => true)
        [⟨JSValue.str "a", JSValue.str "u", JSValue.undef, 10, false, 0⟩,
          ⟨JSValue.str "b", JSValue.str "v", JSValue.undef, 99, false, 0⟩]).events =
        mkEvents (dueIdx 50 0
          [⟨JSValue.str "a", JSValue.str "u", JSValue.undef, 10, false, 0⟩,
            ⟨JSValue.str "b", JSValue.str "v", JSValue.undef, 99, false, 0⟩]) ∧
      (checkReminders (fun _ => none) (some "Sanjeev") 50 (fun _ => true) (fun _ => true)
        [⟨JSValue.str "a", JSValue.str "u", JSValue.undef, 10, false, 0⟩,
          ⟨JSValue.str "b", JSValue.str "v", JSValue.undef, 99, false, 0⟩]).store.length =
        ([⟨JSValue.str "a", JSValue.str "u", JSValue.undef, 10, false, 0⟩,
          ⟨JSValue.str "b", JSValue.str "v", JSValue.undef, 99, false, 0⟩] :
            List Reminder).length ∧
      (∀ i : ℕ, ∀ r,
        ([⟨JSValue.str "a", JSValue.str "u", JSValue.undef, 10, false, 0⟩,
          ⟨JSValue.str "b", JSValue.str "v", JSValue.undef, 99, false, 0⟩] :
            List Reminder)[i]? = some r →
        (checkReminders (fun _ => none) (some "Sanjeev") 50 (fun _ => true) (fun _ => true)
          [⟨JSValue.str "a", JSValue.str "u", JSValue.undef, 10, false, 0⟩,
            ⟨JSValue.str "b", JSValue.str "v", JSValue.undef, 99, false, 0⟩]).store[i]? =
          some (if isDue 50 r then setSentR r else r))) :=
  ⟨⟨fun _ => rfl, fun _ => rfl⟩,
    c5_sweep_success (fun _ => none) 50 (fun _ => true) (fun _ => true)
      [⟨JSValue.str "a", JSValue.str "u", JSValue.undef, 10, false, 0⟩,
        ⟨JSValue.str "b", JSValue.str "v", JSValue.undef, 99, false, 0⟩]
      (fun _ => rfl) (fun _ => rfl)⟩

/-! ## Claim C6 -/

/-- Claim C6: the sweep loop is fail-fast — if mail or save fails at the
k-th fetched record after all earlier records succeeded, the response is
500 and every fetched record after the failing one is neither notified
(no mail event), nor marked sent (no mark event and its store row is
unchanged). -/
theorem c6_fail_fast (env : String → Option String) (now : ℤ) (mo so : ℕ → Bool)
    (store : List Reminder) (k : ℕ)
    (hpre : ∀ j, j < k → mo j = true ∧ so j = true)
    (hfail : ¬(mo k = true ∧ so k = true))
    (hlen : k < (dueIdx now 0 store).length) :
    (checkReminders env (some "Sanjeev") now mo so store).status = 500 ∧
    (∀ j : ℕ, ∀ p : ℕ × Reminder, k < j → (dueIdx now 0 store)[j]? = some p →
      (checkReminders env (some "Sanjeev") now mo so store).store[p.1]? = store[p.1]? ∧
      SEvent.mail p.1 ∉ (checkReminders env (some "Sanjeev") now mo so store).events ∧
      SEvent.markSent p.1 ∉ (checkReminders env (some "Sanjeev") now mo so store).events) := by
  obtain ⟨evtail, heq, hcase⟩ := sweepLoop_abort mo so k (dueIdx now 0 store) 0 store []
    hlen (fun j hj => by simpa using hpre j hj) (by simpa using hfail)
  have hck : checkReminders env (some "Sanjeev") now mo so store =
      ⟨500, none, applySent store ((dueIdx now 0 store).take k),
        mkEvents ((dueIdx now 0 store).take k) ++ evtail⟩ := by
    unfold checkReminders
    rw [if_neg (by simp [expectedCronSecret])]
    simp only [heq, List.nil_append]
  rw [hck]
  refine ⟨rfl, ?_⟩
  intro j p hkj hjp
  have hplt : ∀ q ∈ (dueIdx now 0 store).take k, q.1 < p.1 := by
    intro q hq
    obtain ⟨j', hj'⟩ := getq_of_mem hq
    have hj'k : j' < k := by
      have h2 := lt_length_of_getq hj'
      simp at h2
      omega
    rw [getq_take _ k j' hj'k] at hj'
    exact dueIdx_getq_lt now store 0 j' j q p (by omega) hj' hjp
  refine ⟨?_, ?_, ?_⟩
  · exact applySent_getq_notin _ _ _ (fun q hq => Nat.ne_of_lt (hplt q hq))
  · intro hmem
    rcases List.mem_append.mp hmem with hmem | hmem
    · obtain ⟨q, hq, hor⟩ := mem_mkEvents _ _ hmem
      have := hplt q hq
      rcases hor with he | he
      · rw [SEvent.mail.injEq] at he
        omega
      · exact SEvent.noConfusion he
    · rcases hcase with rfl | ⟨pm, hpm, rfl⟩
      · simp at hmem
      · simp only [List.mem_singleton, SEvent.mail.injEq] at hmem
        have := dueIdx_getq_lt now store 0 k j pm p hkj hpm hjp
        omega
  · intro hmem
    rcases List.mem_append.mp hmem with hmem | hmem
    · obtain ⟨q, hq, hor⟩ := mem_mkEvents _ _ hmem
      have := hplt q hq
      rcases hor with he | he
      · exact SEvent.noConfusion he
      · rw [SEvent.markSent.injEq] at he
        omega
    · rcases hcase with rfl | ⟨pm, hpm, rfl⟩
      · simp at hmem
      · simp at hmem

/-- Witness for C6: three due records, mail fails on the second; the third
record's row is untouched and has no events, and the response is 500. -/
theorem c6_fail_fast_witness :
    ((∀ j : ℕ, j < 1 → (fun j => decide (j < 1) : ℕ → Bool) j = true ∧
        (fun _ => true : ℕ → Bool) j = true) ∧
      ¬((fun j => decide (j < 1) : ℕ → Bool) 1 = true ∧
        (fun _ => true : ℕ → Bool) 1 = true) ∧
      1 < (dueIdx 50 0
        [⟨JSValue.str "a", JSValue.str "u", JSValue.undef, 10, false, 0⟩,
          ⟨JSValue.str "b", JSValue.str "v", JSValue.undef, 11, false, 0⟩,
          ⟨JSValue.str "c", JSValue.str "w", JSValue.undef, 12, false, 0⟩]).length) ∧
    ((checkReminders (fun _ => none) (some "Sanjeev") 50
        (fun j => decide (j < 1)) (fun _ => true)
        [⟨JSValue.str "a", JSValue.str "u", JSValue.undef, 10, false, 0⟩,
          ⟨JSValue.str "b", JSValue.str "v", JSValue.undef, 11, false, 0⟩,
          ⟨JSValue.str "c", JSValue.str "w", JSValue.undef, 12, false, 0⟩]).status = 500 ∧
      (∀ j : ℕ, ∀ p : ℕ × Reminder, 1 < j →
        (dueIdx 50 0
          [⟨JSValue.str "a", JSValue.str "u", JSValue.undef, 10, false, 0⟩,
            ⟨JSValue.str "b", JSValue.str "v", JSValue.undef, 11, false, 0⟩,
            ⟨JSValue.str "c", JSValue.str "w", JSValue.undef, 12, false, 0⟩])[j]? = some p →
        (checkReminders (fun _ => none) (some "Sanjeev") 50
          (fun j => decide (j < 1)) (fun _ => true)
          [⟨JSValue.str "a", JSValue.str "u", JSValue.undef, 10, false, 0⟩,
            ⟨JSValue.str "b", JSValue.str "v", JSValue.undef, 11, false, 0⟩,
            ⟨JSValue.str "c", JSValue.str "w", JSValue.undef, 12, false, 0⟩]).store[p.1]? =
          ([⟨JSValue.str "a", JSValue.str "u", JSValue.undef, 10, false, 0⟩,
            ⟨JSValue.str "b", JSValue.str "v", JSValue.undef, 11, false, 0⟩,
            ⟨JSValue.str "c", JSValue.str "w", JSValue.undef, 12, false, 0⟩] :
              List Reminder)[p.1]? ∧
        SEvent.mail p.1 ∉ (checkReminders (fun _ => none) (some "Sanjeev") 50
          (fun j => decide (j < 1)) (fun _ => true)
          [⟨JSValue.str "a", JSValue.str "u", JSValue.undef, 10, false, 0⟩,
            ⟨JSValue.str "b", JSValue.str "v", JSValue.undef, 11, false, 0⟩,
            ⟨JSValue.str "c", JSValue.str "w", JSValue.undef, 12, false, 0⟩]).events ∧
        SEvent.markSent p.1 ∉ (checkReminders (fun _ => none) (some "Sanjeev") 50
          (fun j => decide (j < 1)) (fun _ => true)
          [⟨JSValue.str "a", JSValue.str "u", JSValue.undef, 10, false, 0⟩,
            ⟨JSValue.str "b", JSValue.str "v", JSValue.undef, 11, false, 0⟩,
            ⟨JSValue.str "c", JSValue.str "w", JSValue.undef, 12, false, 0⟩]).events)) :=
  ⟨⟨by decide, by decide, by decide⟩,
    c6_fail_fast (fun _ => none) 50 (fun j => decide (j < 1)) (fun _ => true)
      [⟨JSValue.str "a", JSValue.str "u", JSValue.undef, 10, false, 0⟩,
        ⟨JSValue.str "b", JSValue.str "v", JSValue.undef, 11, false, 0⟩,
        ⟨JSValue.str "c", JSValue.str "w", JSValue.undef, 12, false, 0⟩] 1
      (by decide) (by decide) (by decide)⟩

/-! ## Claim C7 -/

/-- Counterexample to C7 as stated: the expected secret is the hardcoded
string literal 'Sanjeev', not a value supplied through the environment — in
a process whose environment supplies no value for any variable at all, the
expected value is still "Sanjeev" and a request carrying it is authorized
(status 200), so the comparison value cannot come from the environment. -/
theorem c7_env_secret_cex :
    expectedCronSecret (fun _ => none) = "Sanjeev" ∧
    (checkReminders (fun _ => none) (some "Sanjeev") 0 (fun _ => true) (fun _ => true)
      []).status = 200 := by
  exact ⟨rfl, by decide⟩

/-- Claim C7 (amended): a sweep request whose `x-cron-secret` header does
not equal "Sanjeev" is rejected with 401 before anything happens — the
response carries no count, the store is returned unchanged and the event
log is empty — and the expected value is the hardcoded literal "Sanjeev",
the same for every environment (it is not configured through the
environment). -/
theorem c7_unauthorized_amended :
    (∀ (env : String → Option String) (secret : Option String) (now : ℤ)
      (mo so : ℕ → Bool) (store : List Reminder),
      secret ≠ some "Sanjeev" →
      checkReminders env secret now mo so store = ⟨401, none, store, []⟩) ∧
    (∀ env : String → Option String, expectedCronSecret env = "Sanjeev") := by
  constructor
  · intro env secret now mo so store h
    unfold checkReminders
    rw [if_pos (show secret ≠ some (expectedCronSecret env) from h)]
  · intro env
    rfl

/-- Witness for C7 (amended): a request with the wrong header "nope" is
answered 401 with the store returned unchanged and no events. -/
theorem c7_unauthorized_amended_witness :
    (some "nope" ≠ some "Sanjeev") ∧
    checkReminders (fun _ => none) (some "nope") 0 (fun _ => true) (fun _ => true)
      [⟨JSValue.str "a", JSValue.str "u", JSValue.undef, 10, false, 0⟩] =
      ⟨401, none, [⟨JSValue.str "a", JSValue.str "u", JSValue.undef, 10, false, 0⟩], []⟩ :=
  ⟨by decide,
    c7_unauthorized_amended.1 (fun _ => none) (some "nope") 0 (fun _ => true)
      (fun _ => true) [⟨JSValue.str "a", JSValue.str "u", JSValue.undef, 10, false, 0⟩]
      (by decide)⟩

/-! ## Claim C9 -/

/-- Claim C9: the `sent` flag of every record is false at creation (the
intake handler only ever appends a record with `sent = false`, leaving
existing rows untouched), and a sweep changes each store row either not at
all or by exactly the `sent` false-to-true transition — every other field
is preserved, a sent record is never reset, and the transition happens
only for a record whose reminder notification was sent (its mail event is
in the log). -/
theorem c9_sent_transition :
    (∀ body now mailOk saveOk store,
      (setReminder body now mailOk saveOk store).store = store ∨
      ∃ rNew, (setReminder body now mailOk saveOk store).store = store ++ [rNew] ∧
        rNew.sent = false) ∧
    (∀ (env : String → Option String) (secret : Option String) (now : ℤ)
      (mo so : ℕ → Bool) (store : List Reminder) (i : ℕ) (r : Reminder),
      store[i]? = some r →
      ∃ r2, (checkReminders env secret now mo so store).store[i]? = some r2 ∧
        (r2 = r ∨ (r.sent = false ∧ r2 = setSentR r ∧
          SEvent.mail i ∈ (checkReminders env secret now mo so store).events))) := by
  constructor
  · intro body now mailOk saveOk store
    by_cases h1 : (jsFalsy body.email || jsFalsy body.problemUrl ||
        jsFalsy body.reminderMinutes) = true
    · left
      simp [setReminder, h1]
    · rw [Bool.not_eq_true] at h1
      cases hp : parseReminderTime body.reminderMinutes with
      | none => left; simp [setReminder, h1, hp]
      | some m =>
        cases hjz : jsLeZero m with
        | true => left; simp [setReminder, h1, hp, hjz]
        | false =>
          cases hcalc : calculateReminderTime m now with
          | none =>
            left
            cases mailOk <;> simp [setReminder, h1, hp, hjz, hcalc]
          | some sf =>
            cases mailOk with
            | false => left; simp [setReminder, h1, hp, hjz, hcalc]
            | true =>
              cases saveOk with
              | false => left; simp [setReminder, h1, hp, hjz, hcalc]
              | true =>
                right
                refine ⟨⟨body.email, body.problemUrl, body.problemTitle,
                  sf, false, now⟩, ?_, rfl⟩
                simp [setReminder, h1, hp, hjz, hcalc]
  · intro env secret now mo so store i r hir
    by_cases hs : secret ≠ some (expectedCronSecret env)
    · refine ⟨r, ?_, Or.inl rfl⟩
      unfold checkReminders
      rw [if_pos hs]
      exact hir
    · have hdue : ∀ q ∈ dueIdx now 0 store, store[q.1]? = some q.2 ∧ q.2.sent = false := by
        intro q hq
        obtain ⟨-, hget, hd⟩ := dueIdx_mem_char now store 0 q hq
        rw [Nat.sub_zero] at hget
        exact ⟨hget, isDue_sent_false hd⟩
      have hnd : ∀ (j1 j2 : ℕ) (q1 q2 : ℕ × Reminder), j1 < j2 →
          (dueIdx now 0 store)[j1]? = some q1 → (dueIdx now 0 store)[j2]? = some q2 →
          q1.1 ≠ q2.1 :=
        fun j1 j2 q1 q2 hlt h1 h2 =>
          Nat.ne_of_lt (dueIdx_getq_lt now store 0 j1 j2 q1 q2 hlt h1 h2)
      obtain ⟨r2, hr2, hcase⟩ := sweepLoop_sent_invariant mo so (dueIdx now 0 store)
        0 store [] hdue hnd i r hir
      rcases hsl : sweepLoop mo so 0 (dueIdx now 0 store) store [] with ⟨b, store2, evs⟩
      rw [hsl] at hr2 hcase
      have hck : checkReminders env secret now mo so store =
          if b = true then
            ⟨200, some (dueIdx now 0 store).length, store2, evs⟩
          else ⟨500, none, store2, evs⟩ := by
        unfold checkReminders
        rw [if_neg hs]
        simp only [hsl]
        cases b <;> rfl
      rw [hck]
      cases b <;> exact ⟨r2, by simpa using hr2, by simpa using hcase⟩

/-- Witness for C9: a sweep over a one-record store in which the due
record flips to sent with its mail logged. -/
theorem c9_sent_transition_witness :
    ([⟨JSValue.str "a", JSValue.str "u", JSValue.undef, 10, false, 0⟩] :
      List Reminder)[0]? =
      some ⟨JSValue.str "a", JSValue.str "u", JSValue.undef, 10, false, 0⟩ ∧
    ∃ r2, (checkReminders (fun _ => none) (some "Sanjeev") 50 (fun _ => true)
        (fun _ => true)
        [⟨JSValue.str "a", JSValue.str "u", JSValue.undef, 10, false, 0⟩]).store[0]? =
        some r2 ∧
      (r2 = ⟨JSValue.str "a", JSValue.str "u", JSValue.undef, 10, false, 0⟩ ∨
        ((⟨JSValue.str "a", JSValue.str "u", JSValue.undef, 10, false, 0⟩ :
            Reminder).sent = false ∧
          r2 = setSentR ⟨JSValue.str "a", JSValue.str "u", JSValue.undef, 10, false, 0⟩ ∧
          SEvent.mail 0 ∈ (checkReminders (fun _ => none) (some "Sanjeev") 50
            (fun _ => true) (fun _ => true)
            [⟨JSValue.str "a", JSValue.str "u", JSValue.undef, 10, false, 0⟩]).events)) :=
  ⟨rfl,
    c9_sent_transition.2 (fun _ => none) (some "Sanjeev") 50 (fun _ => true)
      (fun _ => true) [⟨JSValue.str "a", JSValue.str "u", JSValue.undef, 10, false, 0⟩]
      0 ⟨JSValue.str "a", JSValue.str "u", JSValue.undef, 10, false, 0⟩ rfl⟩

end MailerApi
